import Mathlib

/-!
Verification development for the delivery reconciliation and quota-accounting
engine of `src/main.py` (CloudIA farmer quota verification system).

The pandas/SQLite pipeline of the submission block (lines 158-256 of
`src/main.py`) is embedded as pure functions over lists.  Real numbers stored
in the ledger (`delivered_kg`, `area_ha`) are modelled as rationals; the
derived `quota_used_pct` column, which in pandas is an IEEE-754 float that can
be `+inf` (positive / 0) or `NaN` (0 / 0), is modelled by the value domain
`PVal` below, with division and comparisons following IEEE-754 semantics
exactly as float64 behaves at these inputs.
-/

set_option linter.unusedVariables false

/-- A delivery input row after column standardisation (main.py lines 169-173):
fields `farmer_id`, `delivered_kg`, `lot_number`.  Identifier normalisation
(lower-casing / stripping, line 186) is assumed already applied. -/
structure InputRow where
  farmer_id : String
  delivered_kg : Rat
  lot_number : String
deriving DecidableEq, Repr

/-- A row of the `deliveries` table (main.py lines 78-83):
`lot_number`, `exporter_name`, `farmer_id`, `delivered_kg`, with primary key
`(lot_number, exporter_name, farmer_id)`. -/
structure DeliveryRow where
  lot_number : String
  exporter_name : String
  farmer_id : String
  delivered_kg : Rat
deriving DecidableEq, Repr

/-- The `deliveries` table, as the list of its rows (row order is immaterial
to every query the program makes). -/
abbrev Ledger := List DeliveryRow

/-- A row of the static farmer register (`farmer_database.xlsx`):
`farmer_id`, `area_ha`. -/
structure FarmerRecord where
  farmer_id : String
  area_ha : Rat
deriving DecidableEq, Repr

/-- Value domain of the pandas float64 column `quota_used_pct`: a finite
rational, positive or negative infinity, or NaN. -/
inductive PVal where
  | num (q : Rat)
  | posInf
  | negInf
  | nan
deriving DecidableEq, Repr

/-- IEEE-754 division of two finite values, as pandas performs it at
main.py line 208: positive / 0 is `+inf`, negative / 0 is `-inf`,
0 / 0 is `NaN`. -/
def pdiv (a b : Rat) : PVal :=
  if b = 0 then
    (if 0 < a then PVal.posInf else if a < 0 then PVal.negInf else PVal.nan)
  else PVal.num (a / b)

/-- Multiplication by the finite constant 100 (main.py line 208), extended to
the special values as IEEE-754 does. -/
def pmul100 : PVal → PVal
  | PVal.num q => PVal.num (q * 100)
  | PVal.posInf => PVal.posInf
  | PVal.negInf => PVal.negInf
  | PVal.nan => PVal.nan

/-- IEEE-754 comparison `x <= c` against a finite constant: any comparison
with NaN is false. -/
def ple (x : PVal) (c : Rat) : Bool :=
  match x with
  | PVal.num q => decide (q ≤ c)
  | PVal.posInf => false
  | PVal.negInf => true
  | PVal.nan => false

/-- IEEE-754 comparison `x > c` against a finite constant: any comparison
with NaN is false. -/
def pgt (x : PVal) (c : Rat) : Bool :=
  match x with
  | PVal.num q => decide (c < q)
  | PVal.posInf => true
  | PVal.negInf => false
  | PVal.nan => false

/-- The per-hectare quota constant `QUOTA_PER_HA` (main.py line 11). -/
def QUOTA_PER_HA : Rat := 800

/-- The `quota_used_pct` column (main.py line 208):
`delivered_kg / max_quota_kg * 100`. -/
def quota_used_pct (delivered max_quota : Rat) : PVal :=
  pmul100 (pdiv delivered max_quota)

/-- The three values of the `quota_status` column (main.py line 209). -/
inductive QuotaStatus where
  | OK
  | Warning
  | EXCEEDED
deriving DecidableEq, Repr

/-- The status lambda of main.py line 209:
`"OK" if x <= 80 else ("Warning" if x <= 100 else "EXCEEDED")`. -/
def quota_status_of (x : PVal) : QuotaStatus :=
  if ple x 80 then QuotaStatus.OK
  else if ple x 100 then QuotaStatus.Warning
  else QuotaStatus.EXCEEDED

/-- Natural-key equality of two delivery rows: the dedup subset of main.py
line 187 and the primary key of the `deliveries` table. -/
def sameKey (a b : DeliveryRow) : Bool :=
  a.lot_number == b.lot_number && a.exporter_name == b.exporter_name &&
    a.farmer_id == b.farmer_id

/-- `drop_duplicates(subset=[lot_number, exporter_name, farmer_id],
keep=last)` of main.py line 187: a row is kept exactly when no later row
shares its natural key; kept rows stay in input order. -/
def drop_duplicates_keep_last : List DeliveryRow → List DeliveryRow
  | [] => []
  | r :: rest =>
      if rest.any (fun s => sameKey r s) then drop_duplicates_keep_last rest
      else r :: drop_duplicates_keep_last rest

/-- Attaching the sidebar exporter name to an input row
(main.py line 185: `delivery_df[exporter_name] = exporter_name`). -/
def withExporter (e : String) (r : InputRow) : DeliveryRow :=
  { lot_number := r.lot_number, exporter_name := e,
    farmer_id := r.farmer_id, delivered_kg := r.delivered_kg }

/-- The batch as it stands after main.py lines 185-187: exporter column
added, then deduplicated by natural key keeping the last occurrence. -/
def processedBatch (e : String) (rows : List InputRow) : List DeliveryRow :=
  drop_duplicates_keep_last (rows.map (withExporter e))

/-- Modelled from the spec: `delete_existing_delivery(lot_number,
exporter_name)` is called at main.py line 192 but its definition is not part
of `src/main.py`; spec section 4.2 (`replaceScope`) specifies that it deletes
every ledger row whose `(lot_number, exporter_name)` matches the given scope
before the fresh insert. -/
def delete_existing_delivery (lot e : String) (led : Ledger) : Ledger :=
  led.filter (fun s => !(s.lot_number == lot && s.exporter_name == e))

/-- One step of the spec upsert: the new row replaces any existing row
sharing its natural key (the table is a row set keyed by the primary key, so
the position of the surviving row is immaterial). -/
def upsertRow (led : Ledger) (r : DeliveryRow) : Ledger :=
  r :: led.filter (fun s => !(sameKey s r))

/-- Modelled from the spec: `save_delivery_to_db(delivery_df)` is called at
main.py line 193 but its definition is not part of `src/main.py`; spec
section 4.2 (`upsertDeliveries`) specifies that each batch row replaces any
existing ledger row sharing its natural key and is inserted otherwise. -/
def save_delivery_to_db (batch : List DeliveryRow) (led : Ledger) : Ledger :=
  batch.foldl upsertRow led

/-- The ledger-mutating part of one submission (main.py lines 185-193):
process the batch, read the first lot number (`iloc[0]`, line 190), and if
both it and the exporter name are non-empty, delete the
`(lot_number, exporter_name)` scope and upsert the whole deduplicated batch.
When the batch is empty or the scope is missing, the ledger is untouched. -/
def submit (e : String) (rows : List InputRow) (led : Ledger) : Ledger :=
  match processedBatch e rows with
  | [] => led
  | r0 :: rest =>
      if r0.lot_number == "" || e == "" then led
      else save_delivery_to_db (r0 :: rest)
             (delete_existing_delivery r0.lot_number e led)

/-- Sum of `delivered_kg` over all ledger rows of one farmer: the value the
`GROUP BY farmer_id` aggregate of main.py line 200 reports for a farmer that
has rows, and 0 otherwise. -/
def agg (fid : String) (led : Ledger) : Rat :=
  ((led.filter (fun r => r.farmer_id == fid)).map
    (fun r => r.delivered_kg)).sum

/-- First-occurrence deduplication worker (accumulates the ids already
seen). -/
def uniqueFirstAux : List String → List String → List String
  | _, [] => []
  | seen, x :: xs =>
      if seen.contains x then uniqueFirstAux seen xs
      else x :: uniqueFirstAux (x :: seen) xs

/-- Distinct values of a string column in first-occurrence order (the
grouping keys of a `GROUP BY`, and `pandas.unique`). -/
def uniqueFirst (l : List String) : List String := uniqueFirstAux [] l

/-- The query of main.py line 200: `SELECT farmer_id, SUM(delivered_kg) FROM
deliveries GROUP BY farmer_id`, as the list of (farmer_id, total) pairs, one
per farmer present in the ledger. -/
def aggregate_query (led : Ledger) : List (String × Rat) :=
  (uniqueFirst (led.map (fun r => r.farmer_id))).map (fun i => (i, agg i led))

/-- The left-join-and-fill of main.py line 205: look a farmer up in the
aggregate table; farmers with no row get `fillna` value 0. -/
def lookup_total (tq : List (String × Rat)) (fid : String) : Rat :=
  match tq.find? (fun t => t.1 == fid) with
  | some t => t.2
  | none => 0

/-- A row of `merged_df` (main.py lines 197-209): register data joined with
the ledger total, plus the derived quota columns. -/
structure Assessment where
  farmer_id : String
  area_ha : Rat
  max_quota_kg : Rat
  delivered_kg : Rat
  quota_used_pct : PVal
  quota_status : QuotaStatus
deriving DecidableEq, Repr

/-- `merged_df` (main.py lines 197-209): the register restricted to farmers
of the current batch (`filtered_farmers_df`, line 204), each joined with its
global ledger total (line 205) and given `max_quota_kg = area_ha *
QUOTA_PER_HA` (line 197), `quota_used_pct` (line 208) and `quota_status`
(line 209). -/
def assess (led : Ledger) (farmers : List FarmerRecord)
    (batchIds : List String) : List Assessment :=
  (farmers.filter (fun f => batchIds.contains f.farmer_id)).map (fun f =>
    let mq := f.area_ha * QUOTA_PER_HA
    let dk := lookup_total (aggregate_query led) f.farmer_id
    let pct := quota_used_pct dk mq
    { farmer_id := f.farmer_id, area_ha := f.area_ha, max_quota_kg := mq,
      delivered_kg := dk, quota_used_pct := pct,
      quota_status := quota_status_of pct })

/-- The farmer ids of the current (processed) batch. -/
def batchFarmerIds (e : String) (rows : List InputRow) : List String :=
  (processedBatch e rows).map (fun r => r.farmer_id)

/-- The assessment a submission produces: persist the batch, then run the
quota computation against the updated global ledger and the register rows
whose id occurs in the batch. -/
def assessSubmission (farmers : List FarmerRecord) (e : String)
    (rows : List InputRow) (led : Ledger) : List Assessment :=
  assess (submit e rows led) farmers (batchFarmerIds e rows)

/-- `unknown_farmers` (main.py line 212): distinct batch farmer ids absent
from the register. -/
def unknown_farmers (farmers : List FarmerRecord) (e : String)
    (rows : List InputRow) : List String :=
  uniqueFirst ((batchFarmerIds e rows).filter
    (fun i => !(farmers.any (fun f => f.farmer_id == i))))

/-- `exceeded_df` (main.py line 213): assessed farmers with
`quota_used_pct > 100`. -/
def exceeded_df (farmers : List FarmerRecord) (e : String)
    (rows : List InputRow) (led : Ledger) : List Assessment :=
  (assessSubmission farmers e rows led).filter
    (fun a => pgt a.quota_used_pct 100)

/-- The approval predicate (main.py lines 227-230):
`all_ids_valid and not any_quota_exceeded`. -/
def approvedB (farmers : List FarmerRecord) (e : String)
    (rows : List InputRow) (led : Ledger) : Bool :=
  (unknown_farmers farmers e rows).isEmpty &&
    (exceeded_df farmers e rows led).isEmpty

/-- The column rename of main.py line 163 applied to one (already
lower-cased) column name: `farmer_id` becomes `coode producteur` and
`n° du lot` becomes `lot`; everything else is unchanged. -/
def rename_alias (c : String) : String :=
  if c == "farmer_id" then "coode producteur"
  else if c == "n° du lot" then "lot" else c

/-- The column set after the alias renaming of line 163.  The argument is
the header list as it stands after the lower-casing of line 160 (string
case plays no role in any claim). -/
def resolvedColumns (cols : List String) : List String :=
  cols.map rename_alias

/-- The required-column check of main.py line 165:
`{coode producteur, poids net, lot}.issubset(columns)`.  After the second
rename (lines 169-173) these three become the canonical `farmer_id`,
`delivered_kg` and `lot_number`. -/
def required_ok (cols : List String) : Bool :=
  cols.contains "coode producteur" && cols.contains "poids net" &&
    cols.contains "lot"

/-- Outcome of one upload: the ledger afterwards and whether the
required-column check rejected the file. -/
structure UploadOutcome where
  ledger : Ledger
  schema_error : Bool
deriving DecidableEq, Repr

/-- The upload path of main.py lines 158-193 at the ledger level: a file
failing the required-column check is rejected (`st.error`, line 166) with no
ledger mutation; otherwise the batch is processed and persisted. -/
def upload (cols : List String) (e : String) (rows : List InputRow)
    (led : Ledger) : UploadOutcome :=
  if required_ok (resolvedColumns cols) then
    { ledger := submit e rows led, schema_error := false }
  else { ledger := led, schema_error := true }

/-- Whether the persistence branch of main.py line 191 is taken: the
processed batch is non-empty and its first lot number and the exporter name
are both non-empty. -/
def scope_ok (e : String) (rows : List InputRow) : Bool :=
  match processedBatch e rows with
  | [] => false
  | r0 :: _ => !(r0.lot_number == "") && !(e == "")

/-- Python name resolution: calling `name` succeeds when the module
environment binds it and raises `NameError` otherwise. -/
def resolveName (env : List String) (name : String) : Except String Unit :=
  if env.contains name then Except.ok ()
  else Except.error ("NameError: name " ++ name ++ " is not defined")

/-- Every name bound at module level in `src/main.py`: imports (lines 1-8),
configuration constants (lines 11-14), the translation table (line 17), the
language selector (line 66), the four function definitions (lines 75, 95,
101, 107), the nested helper (line 176), and every module-level assignment
of the UI script body.  Neither `delete_existing_delivery` nor
`save_delivery_to_db` nor `save_approval_to_db` appears: they are called
(lines 192, 193, 138) but never defined or imported. -/
def main_py_defined_names : List String :=
  ["st", "pd", "sqlite3", "datetime", "FPDF", "BytesIO", "Image", "os",
   "QUOTA_PER_HA", "DB_FILE", "LOGO_PATH", "FARMER_DB_PATH", "translations",
   "language", "init_db", "load_farmer_data", "load_delivery_data",
   "generate_pdf_confirmation", "clean_text", "logo", "farmers_df",
   "delivery_file", "exporter_name", "delivery_df", "lot_number", "conn",
   "cursor", "total_df", "filtered_farmers_df", "merged_df",
   "unknown_farmers", "exceeded_df", "all_ids_valid", "any_quota_exceeded",
   "total_kg", "farmer_count", "lot_numbers", "pdf_file", "f", "password",
   "wipe_password", "deliveries_df", "approvals_df"]

/-- The submission block of main.py lines 158-193 with Python name
resolution made explicit: after the required-column check passes and the
scope is valid, the interpreter must resolve `delete_existing_delivery`
(line 192) and then `save_delivery_to_db` (line 193) before the ledger can
change; an unresolvable name aborts the script run with the `NameError`. -/
def run_submission (env : List String) (cols : List String) (e : String)
    (rows : List InputRow) (led : Ledger) : Except String Ledger :=
  if required_ok (resolvedColumns cols) then
    if scope_ok e rows then
      match resolveName env "delete_existing_delivery" with
      | Except.error m => Except.error m
      | Except.ok _ =>
          match resolveName env "save_delivery_to_db" with
          | Except.error m => Except.error m
          | Except.ok _ => Except.ok (submit e rows led)
    else Except.ok led
  else Except.error "SchemaError: required delivery columns missing"

/-- The approval-recording step (main.py line 138): `generate_pdf_confirmation`
calls `save_approval_to_db`, which the interpreter must resolve first. -/
def record_approval_step (env : List String) : Except String Unit :=
  resolveName env "save_approval_to_db"

/-! ### Helper lemmas: natural keys and deduplication -/

/-- Natural-key equality unpacked to field equalities. -/
theorem sameKey_iff {a b : DeliveryRow} :
    sameKey a b = true ↔
      a.lot_number = b.lot_number ∧ a.exporter_name = b.exporter_name ∧
        a.farmer_id = b.farmer_id := by
  simp [sameKey, and_assoc]

theorem sameKey_refl (a : DeliveryRow) : sameKey a a = true := by
  simp [sameKey]

theorem sameKey_trans_right {a b c : DeliveryRow} (h1 : sameKey a b = true)
    (h2 : sameKey c b = true) : sameKey a c = true := by
  rcases sameKey_iff.mp h1 with ⟨x1, y1, z1⟩
  rcases sameKey_iff.mp h2 with ⟨x2, y2, z2⟩
  exact sameKey_iff.mpr ⟨x1.trans x2.symm, y1.trans y2.symm, z1.trans z2.symm⟩

/-- Every row kept by the dedup pass was a row of the input. -/
theorem dedup_subset {s : DeliveryRow} : ∀ {l : List DeliveryRow},
    s ∈ drop_duplicates_keep_last l → s ∈ l := by
  intro l
  induction l with
  | nil => simp [drop_duplicates_keep_last]
  | cons x xs ih =>
    by_cases hc : xs.any (fun s => sameKey x s) = true
    · simp only [drop_duplicates_keep_last, hc, if_true]
      intro h
      exact List.mem_cons_of_mem _ (ih h)
    · simp only [drop_duplicates_keep_last, hc, if_false]
      intro h
      rcases List.mem_cons.mp h with h | h
      · exact h ▸ List.mem_cons_self _ _
      · exact List.mem_cons_of_mem _ (ih h)

/-- The dedup output has pairwise distinct natural keys. -/
theorem dedup_pairwise : ∀ (l : List DeliveryRow),
    (drop_duplicates_keep_last l).Pairwise (fun a b => sameKey a b = false) := by
  intro l
  induction l with
  | nil => simp [drop_duplicates_keep_last]
  | cons x xs ih =>
    by_cases hc : xs.any (fun s => sameKey x s) = true
    · simpa only [drop_duplicates_keep_last, hc, if_true] using ih
    · simp only [drop_duplicates_keep_last, hc, if_false]
      refine List.pairwise_cons.mpr ⟨?_, ih⟩
      intro b hb
      have hbx : b ∈ xs := dedup_subset hb
      have hall : ∀ s ∈ xs, ¬ sameKey x s = true := by
        intro s hs hk
        exact hc (List.any_eq_true.mpr ⟨s, hs, hk⟩)
      exact Bool.eq_false_iff.mpr (hall b hbx)

/-- Every input row has a kept representative sharing its natural key. -/
theorem dedup_key_covered : ∀ {l : List DeliveryRow} {r : DeliveryRow},
    r ∈ l → ∃ s ∈ drop_duplicates_keep_last l, sameKey s r = true := by
  intro l
  induction l with
  | nil => intro r h; simp at h
  | cons x xs ih =>
    intro r h
    by_cases hc : xs.any (fun s => sameKey x s) = true
    · simp only [drop_duplicates_keep_last, hc, if_true]
      rcases List.mem_cons.mp h with h | h
      · rcases List.any_eq_true.mp hc with ⟨s, hs, hk⟩
        rcases ih hs with ⟨t, ht, htk⟩
        refine ⟨t, ht, ?_⟩
        subst h
        have hrk : sameKey r s = true := hk
        rcases sameKey_iff.mp htk with ⟨x1, y1, z1⟩
        rcases sameKey_iff.mp hrk with ⟨x2, y2, z2⟩
        exact sameKey_iff.mpr
          ⟨x1.trans x2.symm, y1.trans y2.symm, z1.trans z2.symm⟩
      · exact ih h
    · simp only [drop_duplicates_keep_last, hc, if_false]
      rcases List.mem_cons.mp h with h | h
      · exact ⟨x, List.mem_cons_self _ _, h ▸ sameKey_refl x⟩
      · rcases ih h with ⟨t, ht, htk⟩
        exact ⟨t, List.mem_cons_of_mem _ ht, htk⟩

/-! ### Helper lemmas: the upsert fold and scope deletion -/

/-- A row whose natural key does not occur in the batch `b`. -/
def noKeyIn (b : List DeliveryRow) (s : DeliveryRow) : Bool :=
  !(b.any (fun r => sameKey s r))

/-- Characterisation of the spec upsert fold for a batch with pairwise
distinct keys: the batch rows end up in the table (in reversed fold order,
immaterial for a row set) and the prior rows survive exactly when their key
is not touched by the batch. -/
theorem save_eq : ∀ (b : List DeliveryRow) (L : Ledger),
    b.Pairwise (fun a c => sameKey a c = false) →
    save_delivery_to_db b L = b.reverse ++ L.filter (noKeyIn b) := by
  intro b
  induction b with
  | nil =>
    intro L h
    have hL : L.filter (noKeyIn []) = L :=
      List.filter_eq_self.mpr (fun a _ => by simp [noKeyIn])
    simp [save_delivery_to_db, hL]
  | cons x xs ih =>
    intro L h
    rcases List.pairwise_cons.mp h with ⟨hx, hxs⟩
    have step : save_delivery_to_db (x :: xs) L =
        save_delivery_to_db xs (upsertRow L x) := by
      simp [save_delivery_to_db]
    rw [step, ih _ hxs]
    have hxkeep : noKeyIn xs x = true := by
      have : xs.any (fun r => sameKey x r) = false := by
        rcases hax : xs.any (fun r => sameKey x r) with _ | _
        · rfl
        · rcases List.any_eq_true.mp hax with ⟨s, hs, hk⟩
          rw [hx s hs] at hk
          exact absurd hk (by simp)
      simp [noKeyIn, this]
    have hfcons : (upsertRow L x).filter (noKeyIn xs) =
        x :: (L.filter (fun s => !(sameKey s x))).filter (noKeyIn xs) := by
      simp [upsertRow, List.filter_cons, hxkeep]
    rw [hfcons]
    have hff : (L.filter (fun s => !(sameKey s x))).filter (noKeyIn xs) =
        L.filter (noKeyIn (x :: xs)) := by
      rw [List.filter_filter]
      apply List.filter_congr
      intro a ha
      simp [noKeyIn, List.any_cons, Bool.not_or, Bool.and_comm]
    rw [hff]
    simp [List.reverse_cons, List.append_assoc]

/-- Re-filtering by an inner filter predicate changes nothing. -/
theorem filter_restable {α : Type} (p q : α → Bool) (l : List α) :
    ((l.filter p).filter q).filter p = (l.filter p).filter q := by
  apply List.filter_eq_self.mpr
  intro a ha
  exact (List.mem_filter.mp (List.mem_filter.mp ha).1).2

/-- Filtering twice by the same predicate changes nothing. -/
theorem filter_idem {α : Type} (q : α → Bool) (l : List α) :
    (l.filter q).filter q = l.filter q := by
  apply List.filter_eq_self.mpr
  intro a ha
  exact (List.mem_filter.mp ha).2

/-- Rows drawn from the batch itself never survive a `noKeyIn` filter. -/
theorem filter_noKeyIn_of_sub {b M : List DeliveryRow}
    (h : ∀ s ∈ M, s ∈ b) : M.filter (noKeyIn b) = [] := by
  apply List.filter_eq_nil_iff.mpr
  intro a ha hp
  have hany : b.any (fun r => sameKey a r) = true :=
    List.any_eq_true.mpr ⟨a, h a ha, sameKey_refl a⟩
  simp [noKeyIn, hany] at hp

/-- Closed form of `submit` when the persistence branch is taken. -/
theorem submit_eq (e : String) (rows : List InputRow) (led : Ledger)
    (r0 : DeliveryRow) (rest : List DeliveryRow)
    (hb : processedBatch e rows = r0 :: rest)
    (hc : (r0.lot_number == "" || e == "") = false) :
    submit e rows led = (r0 :: rest).reverse ++
      (led.filter (fun s =>
        !(s.lot_number == r0.lot_number && s.exporter_name == e))).filter
        (noKeyIn (r0 :: rest)) := by
  have hpw : (processedBatch e rows).Pairwise
      (fun a b => sameKey a b = false) :=
    dedup_pairwise (rows.map (withExporter e))
  rw [hb] at hpw
  simp only [submit, hb, hc, if_false, Bool.false_eq_true]
  rw [save_eq _ _ hpw]
  rfl

/-- Submitting the same batch twice produces, row for row, the same ledger
as submitting it once: the scope delete plus keyed upsert make `submit`
idempotent. -/
theorem submit_idem (e : String) (rows : List InputRow) (led : Ledger) :
    submit e rows (submit e rows led) = submit e rows led := by
  cases hb : processedBatch e rows with
  | nil => simp [submit, hb]
  | cons r0 rest =>
    cases hc : (r0.lot_number == "" || e == "") with
    | true => simp [submit, hb, hc]
    | false =>
      rw [submit_eq e rows led r0 rest hb hc]
      rw [submit_eq e rows _ r0 rest hb hc]
      congr 1
      rw [List.filter_append, List.filter_append]
      have h1 : (((r0 :: rest).reverse.filter (fun s =>
          !(s.lot_number == r0.lot_number && s.exporter_name == e))).filter
          (noKeyIn (r0 :: rest))) = [] := by
        apply filter_noKeyIn_of_sub
        intro s hs
        exact List.mem_reverse.mp (List.mem_filter.mp hs).1
      rw [h1]
      have h2 := filter_restable
        (fun s => !(s.lot_number == r0.lot_number && s.exporter_name == e))
        (noKeyIn (r0 :: rest)) led
      rw [h2, filter_idem]
      simp

/-! ### Helper lemmas: grouping, lookup and assessment -/

/-- `List.contains` agrees with membership for strings. -/
theorem contains_true_iff (l : List String) (a : String) :
    l.contains a = true ↔ a ∈ l := by
  simp

theorem mem_uniqueFirstAux : ∀ (l seen : List String) (x : String),
    x ∈ l → x ∈ uniqueFirstAux seen l ∨ x ∈ seen := by
  intro l
  induction l with
  | nil => intro seen x h; simp at h
  | cons y ys ih =>
    intro seen x h
    by_cases hc : seen.contains y = true
    · simp only [uniqueFirstAux, hc, if_true]
      rcases List.mem_cons.mp h with h | h
      · exact Or.inr (h ▸ (contains_true_iff seen y).mp hc)
      · exact ih seen x h
    · simp only [uniqueFirstAux, hc, if_false]
      rcases List.mem_cons.mp h with h | h
      · exact Or.inl (h ▸ List.mem_cons_self _ _)
      · rcases ih (y :: seen) x h with h2 | h2
        · exact Or.inl (List.mem_cons_of_mem _ h2)
        · rcases List.mem_cons.mp h2 with h3 | h3
          · exact Or.inl (h3 ▸ List.mem_cons_self _ _)
          · exact Or.inr h3

theorem uniqueFirstAux_subset : ∀ (l seen : List String) (x : String),
    x ∈ uniqueFirstAux seen l → x ∈ l := by
  intro l
  induction l with
  | nil => intro seen x h; simp [uniqueFirstAux] at h
  | cons y ys ih =>
    intro seen x h
    by_cases hc : seen.contains y = true
    · simp only [uniqueFirstAux, hc, if_true] at h
      exact List.mem_cons_of_mem _ (ih seen x h)
    · simp only [uniqueFirstAux, hc, if_false] at h
      rcases List.mem_cons.mp h with h | h
      · exact h ▸ List.mem_cons_self _ _
      · exact List.mem_cons_of_mem _ (ih (y :: seen) x h)

theorem mem_uniqueFirst {l : List String} {x : String} (h : x ∈ l) :
    x ∈ uniqueFirst l := by
  rcases mem_uniqueFirstAux l [] x h with h2 | h2
  · exact h2
  · simp at h2

theorem uniqueFirst_subset {l : List String} {x : String}
    (h : x ∈ uniqueFirst l) : x ∈ l :=
  uniqueFirstAux_subset l [] x h

/-- A farmer with no ledger row has ledger total 0. -/
theorem agg_eq_zero_of_not_mem (fid : String) (led : Ledger)
    (h : fid ∉ led.map (fun r => r.farmer_id)) : agg fid led = 0 := by
  have hnil : led.filter (fun r => r.farmer_id == fid) = [] := by
    apply List.filter_eq_nil_iff.mpr
    intro a ha hp
    exact h (List.mem_map.mpr ⟨a, ha, by simpa using hp⟩)
  simp [agg, hnil]

theorem find_pair_eq (g : String → Rat) : ∀ (u : List String) (fid : String),
    fid ∈ u →
    (u.map (fun i => (i, g i))).find? (fun t => t.1 == fid) =
      some (fid, g fid) := by
  intro u
  induction u with
  | nil => intro fid h; simp at h
  | cons x xs ih =>
    intro fid hm
    by_cases hx : (x == fid) = true
    · have hxe : x = fid := by simpa using hx
      subst hxe
      rw [List.map_cons]
      exact List.find?_cons_of_pos _ (by simp)
    · have hfid : fid ∈ xs := by
        rcases List.mem_cons.mp hm with h | h
        · exact absurd (by simp [h]) hx
        · exact h
      rw [List.map_cons, List.find?_cons_of_neg _ (by simpa using hx)]
      exact ih fid hfid

/-- The left-join-with-fill of main.py line 205 computes exactly the global
ledger total of the farmer: the `GROUP BY` row when it exists, the `fillna`
value 0 exactly when the farmer has no ledger row (whose sum is also 0). -/
theorem lookup_total_agg (led : Ledger) (fid : String) :
    lookup_total (aggregate_query led) fid = agg fid led := by
  by_cases hm : fid ∈ led.map (fun r => r.farmer_id)
  · have hu : fid ∈ uniqueFirst (led.map (fun r => r.farmer_id)) :=
      mem_uniqueFirst hm
    unfold lookup_total aggregate_query
    rw [find_pair_eq (fun i => agg i led) _ fid hu]
  · have hnone : (aggregate_query led).find? (fun t => t.1 == fid) = none := by
      apply List.find?_eq_none.mpr
      intro t ht hp
      rcases List.mem_map.mp ht with ⟨i, hi, hie⟩
      have : i = fid := by
        have := hp
        rw [← hie] at this
        simpa using this
      exact hm (uniqueFirst_subset (this ▸ hi))
    unfold lookup_total
    rw [hnone]
    exact (agg_eq_zero_of_not_mem fid led hm).symm

/-- Every `merged_df` row comes from a register row of the batch and its
derived columns satisfy the defining formulas of main.py lines 197-209. -/
theorem assess_spec {led : Ledger} {farmers : List FarmerRecord}
    {batchIds : List String} {a : Assessment}
    (ha : a ∈ assess led farmers batchIds) :
    ∃ f ∈ farmers, batchIds.contains f.farmer_id = true ∧
      a.farmer_id = f.farmer_id ∧ a.area_ha = f.area_ha ∧
      a.max_quota_kg = a.area_ha * QUOTA_PER_HA ∧
      a.delivered_kg = agg a.farmer_id led ∧
      a.quota_used_pct = quota_used_pct a.delivered_kg a.max_quota_kg ∧
      a.quota_status = quota_status_of a.quota_used_pct := by
  rcases List.mem_map.mp ha with ⟨f, hf, hfa⟩
  rcases List.mem_filter.mp hf with ⟨hmem, hpred⟩
  refine ⟨f, hmem, hpred, ?_⟩
  subst hfa
  exact ⟨rfl, rfl, rfl, lookup_total_agg led f.farmer_id, rfl, rfl⟩

/-- Conversely, every register row whose id is in the batch produces a
`merged_df` row. -/
theorem mem_assess_of_mem {led : Ledger} {farmers : List FarmerRecord}
    {batchIds : List String} {f : FarmerRecord} (hf : f ∈ farmers)
    (hid : batchIds.contains f.farmer_id = true) :
    ∃ a ∈ assess led farmers batchIds, a.farmer_id = f.farmer_id := by
  have hmem : f ∈ farmers.filter (fun f => batchIds.contains f.farmer_id) :=
    List.mem_filter.mpr ⟨hf, hid⟩
  exact ⟨_, List.mem_map_of_mem _ hmem, rfl⟩

/-! ### Helper lemmas: status thresholds -/

theorem quota_status_of_ok {x : PVal} (h : ple x 80 = true) :
    quota_status_of x = QuotaStatus.OK := by
  simp [quota_status_of, h]

theorem ple80_false_of_pgt80 {x : PVal} (h : pgt x 80 = true) :
    ple x 80 = false := by
  cases x with
  | num q =>
    have hq : (80 : Rat) < q := by simpa [pgt] using h
    simp [ple, decide_eq_false_iff_not]
    linarith
  | posInf => rfl
  | negInf => exact absurd h (by simp [pgt])
  | nan => rfl

theorem quota_status_of_warning {x : PVal} (h1 : pgt x 80 = true)
    (h2 : ple x 100 = true) : quota_status_of x = QuotaStatus.Warning := by
  simp [quota_status_of, ple80_false_of_pgt80 h1, h2]

theorem quota_status_of_exceeded {x : PVal} (h : pgt x 100 = true) :
    quota_status_of x = QuotaStatus.EXCEEDED := by
  have h80 : ple x 80 = false := by
    cases x with
    | num q =>
      have hq : (100 : Rat) < q := by simpa [pgt] using h
      simp [ple, decide_eq_false_iff_not]
      linarith
    | posInf => rfl
    | negInf => exact absurd h (by simp [pgt])
    | nan => rfl
  have h100 : ple x 100 = false := by
    cases x with
    | num q =>
      have hq : (100 : Rat) < q := by simpa [pgt] using h
      simp [ple, decide_eq_false_iff_not]
      linarith
    | posInf => rfl
    | negInf => exact absurd h (by simp [pgt])
    | nan => rfl
  simp [quota_status_of, h80, h100]

/-- A farmer classified WARNING is never in the exceeded set. -/
theorem pgt100_false_of_warning {x : PVal}
    (h : quota_status_of x = QuotaStatus.Warning) : pgt x 100 = false := by
  cases x with
  | num q =>
    by_cases h80 : q ≤ 80
    · simp [quota_status_of, ple, h80] at h
    · by_cases h100 : q ≤ 100
      · simp [pgt, decide_eq_false_iff_not]
        linarith
      · simp [quota_status_of, ple, h80, h100] at h
  | posInf => simp [quota_status_of, ple] at h
  | negInf => simp [pgt]
  | nan => simp [quota_status_of, ple] at h

/-! ### Helper lemmas: batch membership and the persisted ledger -/

/-- The farmer id of every input row survives into the processed batch. -/
theorem batch_fid_of_mem (e : String) (rows : List InputRow) (r : InputRow)
    (h : r ∈ rows) : r.farmer_id ∈ batchFarmerIds e rows := by
  have hm : withExporter e r ∈ rows.map (withExporter e) :=
    List.mem_map_of_mem _ h
  rcases dedup_key_covered hm with ⟨s, hs, hk⟩
  have hfid : s.farmer_id = r.farmer_id := (sameKey_iff.mp hk).2.2
  exact List.mem_map.mpr ⟨s, hs, hfid⟩

/-- When the persistence branch is taken, every processed-batch row is a row
of the ledger afterwards. -/
theorem mem_submit_of_mem_batch (e : String) (rows : List InputRow)
    (led : Ledger) (hok : scope_ok e rows = true) {s : DeliveryRow}
    (hs : s ∈ processedBatch e rows) : s ∈ submit e rows led := by
  cases hb : processedBatch e rows with
  | nil =>
    rw [hb] at hs
    simp at hs
  | cons r0 rest =>
    have hok2 := hok
    rw [scope_ok, hb] at hok2
    have hc : (r0.lot_number == "" || e == "") = false := by
      simp only [Bool.and_eq_true] at hok2
      obtain ⟨hl, he⟩ := hok2
      simp only [Bool.not_eq_true'] at hl he
      simp [hl, he]
    rw [submit_eq e rows led r0 rest hb hc]
    rw [hb] at hs
    exact List.mem_append_left _ (List.mem_reverse.mpr hs)

/-- An input row whose farmer id is absent from the register shows up in
`unknown_farmers`. -/
theorem mem_unknown (farmers : List FarmerRecord) (e : String)
    (rows : List InputRow) (r : InputRow) (hr : r ∈ rows)
    (hu : ∀ f ∈ farmers, f.farmer_id ≠ r.farmer_id) :
    r.farmer_id ∈ unknown_farmers farmers e rows := by
  apply mem_uniqueFirst
  apply List.mem_filter.mpr
  refine ⟨batch_fid_of_mem e rows r hr, ?_⟩
  have hany : farmers.any (fun f => f.farmer_id == r.farmer_id) = false := by
    rcases hax : farmers.any (fun f => f.farmer_id == r.farmer_id) with _ | _
    · rfl
    · rcases List.any_eq_true.mp hax with ⟨f, hf, hfk⟩
      exact absurd (by simpa using hfk) (hu f hf)
  simp [hany]

/-- A non-empty list is not `isEmpty`. -/
theorem isEmpty_false_of_mem {α : Type} {l : List α} {a : α} (h : a ∈ l) :
    l.isEmpty = false := by
  rcases hx : l.isEmpty with _ | _
  · rfl
  · rw [List.isEmpty_iff] at hx
    subst hx
    simp at h

theorem sameKey_symm (a b : DeliveryRow) : sameKey a b = sameKey b a := by
  cases h1 : sameKey a b with
  | true =>
    rcases sameKey_iff.mp h1 with ⟨x1, y1, z1⟩
    exact (sameKey_iff.mpr ⟨x1.symm, y1.symm, z1.symm⟩).symm
  | false =>
    cases h2 : sameKey b a with
    | true =>
      rcases sameKey_iff.mp h2 with ⟨x1, y1, z1⟩
      rw [sameKey_iff.mpr ⟨x1.symm, y1.symm, z1.symm⟩] at h1
      exact h1.symm
    | false => rfl

theorem contains_false_of_not_mem {l : List String} {a : String}
    (h : a ∉ l) : l.contains a = false := by
  cases hx : l.contains a with
  | true => exact absurd ((contains_true_iff l a).mp hx) h
  | false => rfl

/-- Dedup keeps exactly the last occurrence of a key: if `r₂` is the last
row of the batch carrying its natural key, the dedup output has exactly the
row `r₂` at that key. -/
theorem dedup_filter_last : ∀ (l₁ : List DeliveryRow) (r₂ : DeliveryRow)
    (l₂ : List DeliveryRow), (∀ s ∈ l₂, sameKey s r₂ = false) →
    (drop_duplicates_keep_last (l₁ ++ r₂ :: l₂)).filter
      (fun s => sameKey s r₂) = [r₂] := by
  intro l₁
  induction l₁ with
  | nil =>
    intro r₂ l₂ hlast
    have hany : ¬ l₂.any (fun s => sameKey r₂ s) = true := by
      intro hax
      rcases List.any_eq_true.mp hax with ⟨s, hs, hk⟩
      rw [sameKey_symm] at hk
      rw [hlast s hs] at hk
      exact absurd hk (by simp)
    rw [List.nil_append, drop_duplicates_keep_last, if_neg hany,
      List.filter_cons, if_pos (sameKey_refl r₂)]
    have htail : (drop_duplicates_keep_last l₂).filter
        (fun s => sameKey s r₂) = [] := by
      apply List.filter_eq_nil_iff.mpr
      intro s hs hk
      rw [hlast s (dedup_subset hs)] at hk
      exact absurd hk (by simp)
    rw [htail]
  | cons x l₁ ih =>
    intro r₂ l₂ hlast
    have hr2mem : r₂ ∈ l₁ ++ r₂ :: l₂ :=
      List.mem_append_right _ (List.mem_cons_self _ _)
    by_cases hc : (l₁ ++ r₂ :: l₂).any (fun s => sameKey x s) = true
    · rw [List.cons_append, drop_duplicates_keep_last, if_pos hc]
      exact ih r₂ l₂ hlast
    · rw [List.cons_append, drop_duplicates_keep_last, if_neg hc,
        List.filter_cons]
      have hxk : ¬ sameKey x r₂ = true := by
        intro hxx
        exact absurd (List.any_eq_true.mpr ⟨r₂, hr2mem, hxx⟩) hc
      rw [if_neg hxk]
      exact ih r₂ l₂ hlast

/-! ### Concrete-scenario evaluations (Rat arithmetic is irreducible to
`decide`, so the pipeline is evaluated by `simp` and `norm_num`) -/

theorem eval_a1_600 :
    assessSubmission [⟨"a1", 1⟩] "expco" [⟨"a1", 600, "l1"⟩] [] =
      [⟨"a1", 1, 800, 600, PVal.num 75, QuotaStatus.OK⟩] := by
  simp [assessSubmission, assess, batchFarmerIds, processedBatch,
    drop_duplicates_keep_last, withExporter, submit, save_delivery_to_db,
    upsertRow, delete_existing_delivery, agg, uniqueFirst, uniqueFirstAux,
    aggregate_query, lookup_total, quota_used_pct, pdiv, pmul100,
    quota_status_of, ple, pgt, sameKey, QUOTA_PER_HA, List.find?]
  try norm_num

theorem eval_a1_640 :
    assessSubmission [⟨"a1", 1⟩] "expco" [⟨"a1", 640, "l1"⟩] [] =
      [⟨"a1", 1, 800, 640, PVal.num 80, QuotaStatus.OK⟩] := by
  simp [assessSubmission, assess, batchFarmerIds, processedBatch,
    drop_duplicates_keep_last, withExporter, submit, save_delivery_to_db,
    upsertRow, delete_existing_delivery, agg, uniqueFirst, uniqueFirstAux,
    aggregate_query, lookup_total, quota_used_pct, pdiv, pmul100,
    quota_status_of, ple, pgt, sameKey, QUOTA_PER_HA, List.find?]
  try norm_num

theorem eval_w0_50 :
    assessSubmission [⟨"w0", 0⟩] "expco" [⟨"w0", 50, "l1"⟩] [] =
      [⟨"w0", 0, 0, 50, PVal.posInf, QuotaStatus.EXCEEDED⟩] := by
  simp [assessSubmission, assess, batchFarmerIds, processedBatch,
    drop_duplicates_keep_last, withExporter, submit, save_delivery_to_db,
    upsertRow, delete_existing_delivery, agg, uniqueFirst, uniqueFirstAux,
    aggregate_query, lookup_total, quota_used_pct, pdiv, pmul100,
    quota_status_of, ple, pgt, sameKey, QUOTA_PER_HA, List.find?]
  try norm_num

theorem eval_z0_0 :
    assessSubmission [⟨"z0", 0⟩] "x" [⟨"z0", 0, "l1"⟩] [] =
      [⟨"z0", 0, 0, 0, PVal.nan, QuotaStatus.EXCEEDED⟩] := by
  simp [assessSubmission, assess, batchFarmerIds, processedBatch,
    drop_duplicates_keep_last, withExporter, submit, save_delivery_to_db,
    upsertRow, delete_existing_delivery, agg, uniqueFirst, uniqueFirstAux,
    aggregate_query, lookup_total, quota_used_pct, pdiv, pmul100,
    quota_status_of, ple, pgt, sameKey, QUOTA_PER_HA, List.find?]
  try norm_num

/-! ### Claim theorems -/

/-- C1: submitting the same batch twice for the same
`(lot_number, exporter_name)` scope fully supersedes the first submission:
after the resubmission the ledger aggregate (sum of `delivered_kg`) of every
farmer equals the aggregate after a single submission of that batch — no
double counting, for every batch, including batches spanning several lot
numbers. -/
theorem resubmission_supersedes (e : String) (rows : List InputRow)
    (led : Ledger) (fid : String) :
    agg fid (submit e rows (submit e rows led)) =
      agg fid (submit e rows led) := by
  rw [submit_idem]

/-- C2: a processed batch is approved exactly when there is no unknown
farmer and no assessed farmer has `quota_used_pct > 100`; in addition a
farmer whose status is WARNING is never in the exceeded set, so WARNING does
not prevent approval. -/
theorem approval_predicate (farmers : List FarmerRecord) (e : String)
    (rows : List InputRow) (led : Ledger) :
    (approvedB farmers e rows led = true ↔
      (unknown_farmers farmers e rows = [] ∧
        ∀ a ∈ assessSubmission farmers e rows led,
          ¬ pgt a.quota_used_pct 100 = true)) ∧
    (∀ a ∈ assessSubmission farmers e rows led,
      a.quota_status = QuotaStatus.Warning →
        pgt a.quota_used_pct 100 = false) := by
  constructor
  · constructor
    · intro h
      simp only [approvedB, Bool.and_eq_true, List.isEmpty_iff] at h
      obtain ⟨h1, h2⟩ := h
      refine ⟨h1, ?_⟩
      intro a ha hgt
      simp only [exceeded_df] at h2
      exact List.filter_eq_nil_iff.mp h2 a ha hgt
    · intro h
      obtain ⟨h1, h2⟩ := h
      simp only [approvedB, Bool.and_eq_true, List.isEmpty_iff]
      refine ⟨h1, ?_⟩
      simp only [exceeded_df]
      exact List.filter_eq_nil_iff.mpr h2
  · intro a ha hw
    have ha2 : a ∈ assess (submit e rows led) farmers
        (batchFarmerIds e rows) := ha
    rcases assess_spec ha2 with ⟨f, hf, hc, hfid, harea, hmq, hdk, hpct, hst⟩
    exact pgt100_false_of_warning (hst.symm.trans hw)

/-- Witness for C2 at a concrete approvable batch: farmer `a1` with 1 ha and
600 kg delivered (75 percent of quota). -/
theorem approval_predicate_witness :
    approvedB [⟨"a1", 1⟩] "expco" [⟨"a1", 600, "l1"⟩] [] = true :=
  (approval_predicate [⟨"a1", 1⟩] "expco" [⟨"a1", 600, "l1"⟩] []).1.mpr
    ⟨by decide, by
      rw [eval_a1_600]
      intro a ha
      rw [List.mem_singleton] at ha
      subst ha
      norm_num [pgt]⟩

/-- C3: for every assessed farmer the status is OK when
`quota_used_pct <= 80`, WARNING when `80 < quota_used_pct <= 100` and
EXCEEDED when `quota_used_pct > 100`; in particular a value of exactly 80
yields OK and exactly 100 yields WARNING. -/
theorem status_thresholds (farmers : List FarmerRecord) (e : String)
    (rows : List InputRow) (led : Ledger) (a : Assessment)
    (ha : a ∈ assessSubmission farmers e rows led) :
    (ple a.quota_used_pct 80 = true → a.quota_status = QuotaStatus.OK) ∧
    (pgt a.quota_used_pct 80 = true ∧ ple a.quota_used_pct 100 = true →
      a.quota_status = QuotaStatus.Warning) ∧
    (pgt a.quota_used_pct 100 = true →
      a.quota_status = QuotaStatus.EXCEEDED) ∧
    (a.quota_used_pct = PVal.num 80 → a.quota_status = QuotaStatus.OK) ∧
    (a.quota_used_pct = PVal.num 100 →
      a.quota_status = QuotaStatus.Warning) := by
  have ha2 : a ∈ assess (submit e rows led) farmers
      (batchFarmerIds e rows) := ha
  rcases assess_spec ha2 with ⟨f, hf, hc, hfid, harea, hmq, hdk, hpct, hst⟩
  refine ⟨?_, ?_, ?_, ?_, ?_⟩
  · intro h
    rw [hst]
    exact quota_status_of_ok h
  · intro h
    rw [hst]
    exact quota_status_of_warning h.1 h.2
  · intro h
    rw [hst]
    exact quota_status_of_exceeded h
  · intro h
    rw [hst, h]
    decide
  · intro h
    rw [hst, h]
    decide

/-- Witness for C3: farmer `a1` with 1 ha delivering 640 kg sits at exactly
80 percent and is classified OK. -/
theorem status_thresholds_witness :
    (⟨"a1", 1, 800, 640, PVal.num 80, QuotaStatus.OK⟩ : Assessment) ∈
        assessSubmission [⟨"a1", 1⟩] "expco" [⟨"a1", 640, "l1"⟩] [] ∧
      (⟨"a1", 1, 800, 640, PVal.num 80, QuotaStatus.OK⟩ :
        Assessment).quota_status = QuotaStatus.OK :=
  ⟨by rw [eval_a1_640]; exact List.mem_singleton.mpr rfl,
    (status_thresholds [⟨"a1", 1⟩] "expco" [⟨"a1", 640, "l1"⟩] []
      ⟨"a1", 1, 800, 640, PVal.num 80, QuotaStatus.OK⟩
      (by rw [eval_a1_640]; exact List.mem_singleton.mpr rfl)).2.2.2.1
      (by decide)⟩

/-- C4: a registered farmer of the batch with `area_ha = 0` and positive
aggregate delivered kg is assessed without a division fault:
`quota_used_pct` is `+inf`, the status is EXCEEDED, the farmer lands in
`exceeded_df` and the batch cannot be approved. -/
theorem zero_area_exceeded (farmers : List FarmerRecord) (e : String)
    (rows : List InputRow) (led : Ledger) (a : Assessment)
    (ha : a ∈ assessSubmission farmers e rows led)
    (harea : a.area_ha = 0) (hdk : 0 < a.delivered_kg) :
    a.quota_used_pct = PVal.posInf ∧
    a.quota_status = QuotaStatus.EXCEEDED ∧
    a ∈ exceeded_df farmers e rows led ∧
    approvedB farmers e rows led = false := by
  have ha2 : a ∈ assess (submit e rows led) farmers
      (batchFarmerIds e rows) := ha
  rcases assess_spec ha2 with ⟨f, hf, hc, hfid, harea2, hmq, hdk2, hpct, hst⟩
  have hmq0 : a.max_quota_kg = 0 := by
    rw [hmq, harea]
    ring
  have hpct2 : a.quota_used_pct = PVal.posInf := by
    rw [hpct, hmq0, quota_used_pct, pdiv]
    simp [hdk, pmul100]
  have hexc : pgt a.quota_used_pct 100 = true := by
    rw [hpct2]
    rfl
  have hmem : a ∈ exceeded_df farmers e rows led := by
    simp only [exceeded_df]
    exact List.mem_filter.mpr ⟨ha, hexc⟩
  refine ⟨hpct2, ?_, hmem, ?_⟩
  · rw [hst]
    exact quota_status_of_exceeded hexc
  · simp only [approvedB, isEmpty_false_of_mem hmem, Bool.and_false]

/-- Witness for C4: farmer `w0` registered with 0 ha delivers 50 kg. -/
theorem zero_area_exceeded_witness :
    (⟨"w0", 0, 0, 50, PVal.posInf, QuotaStatus.EXCEEDED⟩ : Assessment) ∈
        assessSubmission [⟨"w0", 0⟩] "expco" [⟨"w0", 50, "l1"⟩] [] ∧
      approvedB [⟨"w0", 0⟩] "expco" [⟨"w0", 50, "l1"⟩] [] = false :=
  ⟨by rw [eval_w0_50]; exact List.mem_singleton.mpr rfl,
    (zero_area_exceeded [⟨"w0", 0⟩] "expco" [⟨"w0", 50, "l1"⟩] []
      ⟨"w0", 0, 0, 50, PVal.posInf, QuotaStatus.EXCEEDED⟩
      (by rw [eval_w0_50]; exact List.mem_singleton.mpr rfl)
      (by decide) (by decide)).2.2.2⟩

/-- C5: a batch containing a delivery whose farmer id is absent from the
register is not approved and lists that id among the unknown farmers, yet
the delivery row is still persisted (via the spec-modelled
`save_delivery_to_db`) and its farmer appears in a subsequent
aggregate-by-farmer query of the ledger. -/
theorem unknown_farmer_blocks_but_persists (farmers : List FarmerRecord)
    (e : String) (rows : List InputRow) (led : Ledger) (r : InputRow)
    (hr : r ∈ rows) (hu : ∀ f ∈ farmers, f.farmer_id ≠ r.farmer_id)
    (hok : scope_ok e rows = true) :
    approvedB farmers e rows led = false ∧
    r.farmer_id ∈ unknown_farmers farmers e rows ∧
    (∃ s ∈ submit e rows led, s.farmer_id = r.farmer_id) ∧
    (∃ t ∈ aggregate_query (submit e rows led), t.1 = r.farmer_id) := by
  have hunk : r.farmer_id ∈ unknown_farmers farmers e rows :=
    mem_unknown farmers e rows r hr hu
  have happ : approvedB farmers e rows led = false := by
    simp only [approvedB, isEmpty_false_of_mem hunk, Bool.false_and]
  have hm : withExporter e r ∈ rows.map (withExporter e) :=
    List.mem_map_of_mem _ hr
  rcases dedup_key_covered hm with ⟨s, hs, hk⟩
  have hsfid : s.farmer_id = r.farmer_id := (sameKey_iff.mp hk).2.2
  have hsled : s ∈ submit e rows led :=
    mem_submit_of_mem_batch e rows led hok hs
  refine ⟨happ, hunk, ⟨s, hsled, hsfid⟩, ?_⟩
  have hfidmem : r.farmer_id ∈ (submit e rows led).map
      (fun x => x.farmer_id) := List.mem_map.mpr ⟨s, hsled, hsfid⟩
  exact ⟨(r.farmer_id, agg r.farmer_id (submit e rows led)),
    List.mem_map_of_mem _ (mem_uniqueFirst hfidmem), rfl⟩

/-- Witness for C5: delivery by the unregistered farmer `ghost`. -/
theorem unknown_farmer_blocks_but_persists_witness :
    approvedB [⟨"a1", 1⟩] "expco" [⟨"ghost", 40, "l1"⟩] [] = false ∧
      ("ghost" : String) ∈
        unknown_farmers [⟨"a1", 1⟩] "expco" [⟨"ghost", 40, "l1"⟩] :=
  ⟨(unknown_farmer_blocks_but_persists [⟨"a1", 1⟩] "expco"
      [⟨"ghost", 40, "l1"⟩] [] ⟨"ghost", 40, "l1"⟩
      (by decide) (by decide) (by decide)).1,
    (unknown_farmer_blocks_but_persists [⟨"a1", 1⟩] "expco"
      [⟨"ghost", 40, "l1"⟩] [] ⟨"ghost", 40, "l1"⟩
      (by decide) (by decide) (by decide)).2.1⟩

/-- C6: an upload whose columns, after lower-casing and alias resolution,
miss any of the three required delivery columns (`coode producteur` alias of
`farmer_id`, `poids net` alias of `delivered_kg`, `lot` alias of
`lot_number`) is rejected as a schema error with the ledger untouched —
nothing is persisted. -/
theorem schema_error_rejects (cols : List String) (e : String)
    (rows : List InputRow) (led : Ledger)
    (h : "coode producteur" ∉ resolvedColumns cols ∨
      "poids net" ∉ resolvedColumns cols ∨
      "lot" ∉ resolvedColumns cols) :
    (upload cols e rows led).schema_error = true ∧
    (upload cols e rows led).ledger = led := by
  have hreq : required_ok (resolvedColumns cols) = false := by
    rcases h with h | h | h <;>
      rw [required_ok, contains_false_of_not_mem h] <;> simp
  constructor
  · simp [upload, hreq]
  · simp [upload, hreq]

/-- Witness for C6: a file missing the lot-number column. -/
theorem schema_error_rejects_witness :
    (upload ["farmer_id", "poids net"] "expco" [] []).schema_error = true ∧
    (upload ["farmer_id", "poids net"] "expco" [] []).ledger = [] :=
  schema_error_rejects ["farmer_id", "poids net"] "expco" [] []
    (Or.inr (Or.inr (by decide)))

/-- C7: when a batch holds several rows with the same natural key and
different `delivered_kg` values, dedup keeps exactly the last occurrence in
input order, and the persisted `delivered_kg` for that key (via the
spec-modelled upsert) is the later row value: the ledger rows at that key
are exactly the one last row. -/
theorem dedup_tie_break (e : String) (rows : List InputRow) (led : Ledger)
    (l₁ l₂ : List DeliveryRow) (r₂ : DeliveryRow)
    (hsplit : rows.map (withExporter e) = l₁ ++ r₂ :: l₂)
    (hlast : ∀ s ∈ l₂, sameKey s r₂ = false)
    (hdup : ∃ s ∈ l₁, sameKey s r₂ = true ∧
      s.delivered_kg ≠ r₂.delivered_kg)
    (hok : scope_ok e rows = true) :
    (processedBatch e rows).filter (fun s => sameKey s r₂) = [r₂] ∧
    (submit e rows led).filter (fun s => sameKey s r₂) = [r₂] := by
  have hded : (processedBatch e rows).filter (fun s => sameKey s r₂) =
      [r₂] := by
    rw [processedBatch, hsplit]
    exact dedup_filter_last l₁ r₂ l₂ hlast
  refine ⟨hded, ?_⟩
  have hr2b : r₂ ∈ processedBatch e rows := by
    have hx : r₂ ∈ (processedBatch e rows).filter
        (fun s => sameKey s r₂) := by
      rw [hded]
      exact List.mem_singleton.mpr rfl
    exact (List.mem_filter.mp hx).1
  cases hb : processedBatch e rows with
  | nil =>
    rw [hb] at hr2b
    simp at hr2b
  | cons r0 rest =>
    have hok2 := hok
    rw [scope_ok, hb] at hok2
    have hc : (r0.lot_number == "" || e == "") = false := by
      simp only [Bool.and_eq_true] at hok2
      obtain ⟨hl, he⟩ := hok2
      simp only [Bool.not_eq_true'] at hl he
      simp [hl, he]
    rw [submit_eq e rows led r0 rest hb hc, List.filter_append]
    have h1 : (r0 :: rest).reverse.filter (fun s => sameKey s r₂) =
        [r₂] := by
      rw [List.filter_reverse]
      rw [show (r0 :: rest).filter (fun s => sameKey s r₂) = [r₂] from
        hb ▸ hded]
      simp
    have h2 : (((led.filter (fun s =>
        !(s.lot_number == r0.lot_number && s.exporter_name == e))).filter
        (noKeyIn (r0 :: rest))).filter (fun s => sameKey s r₂)) = [] := by
      apply List.filter_eq_nil_iff.mpr
      intro a ha hk
      have hnk : noKeyIn (r0 :: rest) a = true := (List.mem_filter.mp ha).2
      have hany : (r0 :: rest).any (fun r => sameKey a r) = true :=
        List.any_eq_true.mpr ⟨r₂, hb ▸ hr2b, hk⟩
      simp [noKeyIn, hany] at hnk
    rw [h1, h2]
    rfl

/-- Witness for C7: two rows for the key `(l1, x, a1)` delivering 5 kg and
then 7 kg; the ledger keeps exactly the 7 kg row. -/
theorem dedup_tie_break_witness :
    (submit "x" [⟨"a1", 5, "l1"⟩, ⟨"a1", 7, "l1"⟩] []).filter
        (fun s => sameKey s ⟨"l1", "x", "a1", 7⟩) =
      [⟨"l1", "x", "a1", 7⟩] :=
  (dedup_tie_break "x" [⟨"a1", 5, "l1"⟩, ⟨"a1", 7, "l1"⟩] []
    [⟨"l1", "x", "a1", 5⟩] [] ⟨"l1", "x", "a1", 7⟩
    (by decide) (by decide) (by decide) (by decide)).2

/-- C8: the assessed farmers are exactly the registered farmers whose id
occurs in the current batch (not the whole register), while the
`delivered_kg` of every assessed farmer is the sum over all ledger rows of
that farmer — the global ledger aggregate across all lots and exporters,
not just this batch. -/
theorem scope_restricted_global_aggregate (farmers : List FarmerRecord)
    (e : String) (rows : List InputRow) (led : Ledger) :
    (∀ fid : String,
      (∃ a ∈ assessSubmission farmers e rows led, a.farmer_id = fid) ↔
        ((∃ f ∈ farmers, f.farmer_id = fid) ∧
          fid ∈ batchFarmerIds e rows)) ∧
    (∀ a ∈ assessSubmission farmers e rows led,
      a.delivered_kg = agg a.farmer_id (submit e rows led)) := by
  constructor
  · intro fid
    constructor
    · rintro ⟨a, ha, hfid⟩
      have ha2 : a ∈ assess (submit e rows led) farmers
          (batchFarmerIds e rows) := ha
      rcases assess_spec ha2 with ⟨f, hf, hc, hafid, hrest⟩
      refine ⟨⟨f, hf, hafid.symm.trans hfid⟩, ?_⟩
      have hmemf := (contains_true_iff _ _).mp hc
      rwa [hafid.symm.trans hfid] at hmemf
    · rintro ⟨⟨f, hf, hffid⟩, hmem⟩
      have hc : (batchFarmerIds e rows).contains f.farmer_id = true :=
        (contains_true_iff _ _).mpr (by rwa [hffid])
      rcases @mem_assess_of_mem (submit e rows led) farmers
        (batchFarmerIds e rows) f hf hc with ⟨a, ha, hfid2⟩
      exact ⟨a, ha, hfid2.trans hffid⟩
  · intro a ha
    have ha2 : a ∈ assess (submit e rows led) farmers
        (batchFarmerIds e rows) := ha
    rcases assess_spec ha2 with ⟨f, hf, hc, hafid, harea, hmq, hdk, hrest⟩
    exact hdk

/-- Witness for C8 at the concrete approvable batch of farmer `a1`. -/
theorem scope_restricted_global_aggregate_witness :
    (⟨"a1", 1, 800, 600, PVal.num 75, QuotaStatus.OK⟩ :
        Assessment).delivered_kg =
      agg (⟨"a1", 1, 800, 600, PVal.num 75, QuotaStatus.OK⟩ :
        Assessment).farmer_id (submit "expco" [⟨"a1", 600, "l1"⟩] []) :=
  (scope_restricted_global_aggregate [⟨"a1", 1⟩] "expco"
    [⟨"a1", 600, "l1"⟩] []).2
    ⟨"a1", 1, 800, 600, PVal.num 75, QuotaStatus.OK⟩
    (by rw [eval_a1_600]; exact List.mem_singleton.mpr rfl)

/-- C9: `delete_existing_delivery`, `save_delivery_to_db` and
`save_approval_to_db` are called (main.py lines 192, 193, 138) but bound
nowhere in the module, so once a batch passes the required-column check with
a valid scope, the persistence step fails with a Python `NameError` instead
of writing to the ledger, and so does the approval-recording step. -/
theorem missing_persistence_definitions (cols : List String) (e : String)
    (rows : List InputRow) (led : Ledger)
    (h1 : required_ok (resolvedColumns cols) = true)
    (h2 : scope_ok e rows = true) :
    run_submission main_py_defined_names cols e rows led =
      Except.error
        "NameError: name delete_existing_delivery is not defined" ∧
    record_approval_step main_py_defined_names =
      Except.error "NameError: name save_approval_to_db is not defined" ∧
    main_py_defined_names.contains "delete_existing_delivery" = false ∧
    main_py_defined_names.contains "save_delivery_to_db" = false ∧
    main_py_defined_names.contains "save_approval_to_db" = false := by
  refine ⟨?_, ?_, by decide, by decide, by decide⟩
  · rw [run_submission, if_pos h1, if_pos h2]
    rfl
  · rfl

/-- Witness for C9: a well-formed upload still dies on name resolution. -/
theorem missing_persistence_definitions_witness :
    run_submission main_py_defined_names ["farmer_id", "poids net", "lot"]
        "x" [⟨"a1", 1, "l1"⟩] [] =
      Except.error
        "NameError: name delete_existing_delivery is not defined" :=
  (missing_persistence_definitions ["farmer_id", "poids net", "lot"] "x"
    [⟨"a1", 1, "l1"⟩] [] (by decide) (by decide)).1

/-- C10: a registered batch farmer with `area_ha = 0` and aggregate
`delivered_kg = 0` gets the indeterminate `0 / 0` value NaN, for which both
threshold comparisons are false, so the displayed status is EXCEEDED — yet
`NaN > 100` is also false, so the farmer is excluded from `exceeded_df` and
does not block approval: a farmer can read EXCEEDED while the batch is
approved (see the witness). -/
theorem nan_exceeded_not_blocking (farmers : List FarmerRecord) (e : String)
    (rows : List InputRow) (led : Ledger) (a : Assessment)
    (ha : a ∈ assessSubmission farmers e rows led)
    (harea : a.area_ha = 0) (hdk : a.delivered_kg = 0) :
    a.quota_used_pct = PVal.nan ∧
    ple a.quota_used_pct 80 = false ∧
    ple a.quota_used_pct 100 = false ∧
    a.quota_status = QuotaStatus.EXCEEDED ∧
    pgt a.quota_used_pct 100 = false ∧
    a ∉ exceeded_df farmers e rows led := by
  have ha2 : a ∈ assess (submit e rows led) farmers
      (batchFarmerIds e rows) := ha
  rcases assess_spec ha2 with ⟨f, hf, hc, hfid, harea2, hmq, hdk2, hpct, hst⟩
  have hmq0 : a.max_quota_kg = 0 := by
    rw [hmq, harea]
    ring
  have hnan : a.quota_used_pct = PVal.nan := by
    rw [hpct, hdk, hmq0, quota_used_pct, pdiv]
    simp [pmul100]
  refine ⟨hnan, by rw [hnan]; rfl, by rw [hnan]; rfl, ?_,
    by rw [hnan]; rfl, ?_⟩
  · rw [hst, hnan]
    rfl
  · intro hmem
    simp only [exceeded_df] at hmem
    have hgt := (List.mem_filter.mp hmem).2
    rw [hnan] at hgt
    simp [pgt] at hgt

/-- Witness for C10: farmer `z0` with 0 ha delivering 0 kg is shown
EXCEEDED while the batch is approved. -/
theorem nan_exceeded_not_blocking_witness :
    (⟨"z0", 0, 0, 0, PVal.nan, QuotaStatus.EXCEEDED⟩ :
        Assessment).quota_status = QuotaStatus.EXCEEDED ∧
      approvedB [⟨"z0", 0⟩] "x" [⟨"z0", 0, "l1"⟩] [] = true :=
  ⟨(nan_exceeded_not_blocking [⟨"z0", 0⟩] "x" [⟨"z0", 0, "l1"⟩] []
      ⟨"z0", 0, 0, 0, PVal.nan, QuotaStatus.EXCEEDED⟩
      (by rw [eval_z0_0]; exact List.mem_singleton.mpr rfl)
      (by decide) (by decide)).2.2.2.1,
    by
      simp [approvedB, exceeded_df, eval_z0_0, pgt, unknown_farmers,
        batchFarmerIds, processedBatch, drop_duplicates_keep_last,
        withExporter, sameKey, uniqueFirst, uniqueFirstAux]⟩
